import Mathlib

/-!
Shallow embedding of dart/dynamics/Skeleton.cpp (the Skeleton coordinator of the
DART multibody dynamics engine).  Generalized-coordinate scalars are modelled as
rationals; the dof-by-dof matrices as total functions over natural indices
(entries outside the dof range are never written and stay at their initial
value).  BodyNode, Joint, SoftBodyNode and PointMass are external to this
repository (only Skeleton.cpp is in src/), so their per-body computations are
modelled from the spec: the numeric values they contribute are drawn from an
uninterpreted environment, and the per-body cache updates the Skeleton recursions
invoke are recorded in an event trace.
-/

namespace Dart

/-- Joint contract data used by Skeleton.cpp: getDof() and getIndexInSkeleton(0),
the joint's number of generalized coordinates and its first index in the
skeleton's flat coordinate vector. -/
structure JointInfo where
  iStart : Nat
  dof : Nat
deriving DecidableEq

/-- BodyNode contract data used by Skeleton.cpp: the parent joint, the parent
body (null for the root), the stored child order, the spatial constraint
impulse (6 scalars), and the two per-body Jacobian dirty bits that
computeForwardKinematics raises. -/
structure BodyState where
  joint : JointInfo
  parent : Option Nat
  children : List Nat
  constraintImpulse : List ℚ
  jacobianDirty : Bool
  jacobianDerivDirty : Bool
deriving DecidableEq

/-- PointMass contract data used by Skeleton.cpp: the first skeleton index of
its three generalized coordinates, its configurations, velocities and
accelerations (3 scalars each), the indices of its connected point masses
inside the owning soft body, and its constraint impulses (3 scalars). -/
structure PointMassState where
  iStart : Nat
  q : List ℚ
  qdot : List ℚ
  qddot : List ℚ
  neighbors : List Nat
  constraintImpulse : List ℚ
deriving DecidableEq

/-- SoftBodyNode contract data used by Skeleton.cpp: which body node it is
(index into the body list, used as the start of the ancestor walk), the vertex
and edge spring stiffnesses, and the owned point masses. -/
structure SoftBodyState where
  bodyIndex : Nat
  kv : ℚ
  ke : ℚ
  pointMasses : List PointMassState
deriving DecidableEq

/-- The Skeleton state: body list, soft-body list, the flat generalized
coordinate vectors (positions, velocities, accelerations, forces), the
mobility flag, time step, gravity, the cached matrices and the external force
vector, and the dirty bits declared in Skeleton.h and manipulated by
Skeleton.cpp.  Matrices are total functions on Nat indices. -/
structure Skeleton where
  bodies : List BodyState
  softBodies : List SoftBodyState
  genPos : List ℚ
  genVel : List ℚ
  genAcc : List ℚ
  genForce : List ℚ
  mobile : Bool
  timeStep : ℚ
  gravity : List ℚ
  mM : Nat → Nat → ℚ
  mAugM : Nat → Nat → ℚ
  mInvM : Nat → Nat → ℚ
  mInvAugM : Nat → Nat → ℚ
  mFext : Nat → ℚ
  artDirty : Bool
  massDirty : Bool
  augMassDirty : Bool
  invMassDirty : Bool
  invAugMassDirty : Bool
  coriolisDirty : Bool
  gravityDirty : Bool
  combinedDirty : Bool
  extForceDirty : Bool
  dampingDirty : Bool

/-- Skeleton::getDof(): the size of the generalized coordinate vector. -/
def Skeleton.dof (s : Skeleton) : Nat := s.genPos.length

/-- Per-body contract calls the Skeleton recursions invoke on BodyNode objects.
BodyNode is external to this repository, so the calls are recorded as events;
the Nat argument is the body's index in mBodyNodes. -/
inductive Event where
  | updateTransform (i : Nat)
  | updateVelocity (i : Nat)
  | updatePartialAcceleration (i : Nat)
  | updateAcceleration (i : Nat)
  | updateArtInertia (i : Nat)
  | updateBiasImpulseNode (i : Nat)
  | updateInvMassMatrixNode (i : Nat)
  | updateInvAugMassMatrixNode (i : Nat)
  | updateMassMatrixNode (i : Nat)
  | updateJointVelocityChange (i : Nat)
  | updateBodyImpForceFwdDyn (i : Nat)
  | updateConstrainedJointBodyAcc (i : Nat)
  | updateConstrainedTransmittedForce (i : Nat)
deriving DecidableEq

/-- Modelled from the spec: the numeric values the external BodyNode contract
computes during the column-wise matrix assemblies and the external-force
aggregation.  aggMM i j d is the value body i writes at local row d of column j
of the mass matrix while the accelerations hold the unit vector for column j
(aggregateMassMatrix); aggInvMM and aggInvAugMM likewise for
aggregateInvMassMatrix and aggregateInvAugMassMatrix while the forces hold the
unit vector; aggFext i d is the value body i writes at local row d of the
external force vector (aggregateExternalForces).  Within one update call the
kinematic state is fixed, so these values depend only on the body and the
column, which the environment captures. -/
structure BodyEnv where
  aggMM : Nat → Nat → Nat → ℚ
  aggInvMM : Nat → Nat → Nat → ℚ
  aggInvAugMM : Nat → Nat → Nat → ℚ
  aggFext : Nat → Nat → ℚ

/-- Replace the n-th element of a list by applying f to it; identity when n is
out of range. -/
def listModify (f : α → α) : Nat → List α → List α
  | _, [] => []
  | 0, a :: l => f a :: l
  | n + 1, a :: l => a :: listModify f n l

/-- The zero spatial impulse Eigen::Vector6d::Zero(). -/
def zero6 : List ℚ := [0, 0, 0, 0, 0, 0]

/-- Skeleton::computeForwardKinematics (Skeleton.cpp lines 396 to 445): for each
raised flag a forward pass over mBodyNodes invoking the per-body kinematic
updates (recorded as events; the per-body kinematic caches are external state),
then every cache dirty bit is raised except the damping one (that line is
commented out in the source), and every body's Jacobian dirty bits are
raised. -/
def computeForwardKinematics (updT updV updA : Bool) (s : Skeleton) :
    Skeleton × List Event :=
  let n := s.bodies.length
  let trT := if updT then (List.range n).map Event.updateTransform else []
  let trV := if updV then
      (List.range n).flatMap
        (fun i => [Event.updateVelocity i, Event.updatePartialAcceleration i])
    else []
  let trA := if updA then (List.range n).map Event.updateAcceleration else []
  ({ s with
      bodies := s.bodies.map
        (fun b => { b with jacobianDirty := true, jacobianDerivDirty := true }),
      artDirty := true
      massDirty := true
      augMassDirty := true
      invMassDirty := true
      invAugMassDirty := true
      coriolisDirty := true
      gravityDirty := true
      combinedDirty := true
      extForceDirty := true },
   trT ++ trV ++ trA)

/-- Skeleton::setVelocities (lines 331 to 338): store the velocity vector, then
computeForwardKinematics with the transform flag hard-coded to false. -/
def setVelocities (s : Skeleton) (genVels : List ℚ) (updV updA : Bool) :
    Skeleton × List Event :=
  computeForwardKinematics false updV updA { s with genVel := genVels }

/-- Skeleton::setAccelerations (lines 341 to 346): store the acceleration
vector, then computeForwardKinematics with transform and velocity flags
hard-coded to false. -/
def setAccelerations (s : Skeleton) (genAccs : List ℚ) (updA : Bool) :
    Skeleton × List Event :=
  computeForwardKinematics false false updA { s with genAcc := genAccs }

/-- The Eigen assignment mM.triangularView StrictlyUpper = mM.transpose()
(line 558): every strictly upper entry is replaced by its mirror from the
lower triangle. -/
def mirrorUpper (M : Nat → Nat → ℚ) : Nat → Nat → ℚ :=
  fun r c => if r < c then M c r else M r c

/-- The Eigen assignment mInvM.triangularView StrictlyLower = mInvM.transpose()
(line 661): every strictly lower entry is replaced by its mirror from the
upper triangle. -/
def mirrorLower (M : Nat → Nat → ℚ) : Nat → Nat → ℚ :=
  fun r c => if c < r then M c r else M r c

/-- Modelled from the spec: BodyNode::aggregateMassMatrix and the other
column aggregators write the body's block of the requested column, the rows
being the parent joint's skeleton indices (iStart up to iStart + dof). -/
def writeBlock (M : Nat → Nat → ℚ) (jt : JointInfo) (v : Nat → ℚ) (j : Nat) :
    Nat → Nat → ℚ :=
  fun r c =>
    if c = j ∧ jt.iStart ≤ r ∧ r < jt.iStart + jt.dof then v (r - jt.iStart)
    else M r c

/-- One column aggregation without any early exit: every item of the iteration
sequence writes its block of column j.  This is the commented-out full
traversal of Skeleton::updateMassMatrix / updateInvMassMatrix. -/
def aggLoopFull (items : List (JointInfo × (Nat → ℚ))) (j : Nat)
    (M : Nat → Nat → ℚ) : Nat → Nat → ℚ :=
  items.foldl (fun M it => writeBlock M it.1 it.2 j) M

/-- The backward aggregation of Skeleton::updateMassMatrix (lines 545 to 554):
each item writes its block of column j, then the loop breaks when the joint
has positive dof and iStart + dof < j.  The item list is the reverse of
mBodyNodes paired with the column values. -/
def massAggLoopBreak (items : List (JointInfo × (Nat → ℚ))) (j : Nat)
    (M : Nat → Nat → ℚ) : Nat → Nat → ℚ :=
  match items with
  | [] => M
  | it :: rest =>
    let M1 := writeBlock M it.1 it.2 j
    if 0 < it.1.dof ∧ it.1.iStart + it.1.dof < j then M1
    else massAggLoopBreak rest j M1

/-- The forward aggregation of Skeleton::updateInvMassMatrix (lines 648 to 657):
each item writes its block of column j, then the loop breaks when the joint has
positive dof and iStart + dof > j.  The item list is mBodyNodes in order paired
with the column values. -/
def invAggLoopBreak (items : List (JointInfo × (Nat → ℚ))) (j : Nat)
    (M : Nat → Nat → ℚ) : Nat → Nat → ℚ :=
  match items with
  | [] => M
  | it :: rest =>
    let M1 := writeBlock M it.1 it.2 j
    if 0 < it.1.dof ∧ j < it.1.iStart + it.1.dof then M1
    else invAggLoopBreak rest j M1

/-- The iteration sequence of the backward mass-matrix aggregation for column j:
mBodyNodes from last to first, each paired with the values its
aggregateMassMatrix writes. -/
def massItems (env : BodyEnv) (bodies : List BodyState) (j : Nat) :
    List (JointInfo × (Nat → ℚ)) :=
  bodies.enum.reverse.map (fun p => (p.2.joint, env.aggMM p.1 j))

/-- The iteration sequence of the forward inverse-mass-matrix aggregation for
column j: mBodyNodes in order, each paired with the values its
aggregateInvMassMatrix writes. -/
def invItems (env : BodyEnv) (bodies : List BodyState) (j : Nat) :
    List (JointInfo × (Nat → ℚ)) :=
  bodies.enum.map (fun p => (p.2.joint, env.aggInvMM p.1 j))

/-- The iteration sequence of the forward inverse-augmented-mass-matrix
aggregation for column j. -/
def invAugItems (env : BodyEnv) (bodies : List BodyState) (j : Nat) :
    List (JointInfo × (Nat → ℚ)) :=
  bodies.enum.map (fun p => (p.2.joint, env.aggInvAugMM p.1 j))

/-- Skeleton::updateMassMatrix (lines 521 to 564): zero mM, back up the
generalized accelerations, assemble each column j by setting the accelerations
to the unit vector (a plain GenCoordSystem write folded into the column values
of the environment), running the forward per-body cache pass and the backward
aggregation with the triangular early exit, then mirror the strictly upper
triangle from the transpose, restore the accelerations through
Skeleton::setAccelerations with the update flag false (which invokes
computeForwardKinematics(false,false,false)), and clear the mass-matrix dirty
bit. -/
def updateMassMatrix (env : BodyEnv) (s : Skeleton) : Skeleton :=
  let dof := s.dof
  let backup := s.genAcc
  let M := (List.range dof).foldl
    (fun M j => massAggLoopBreak (massItems env s.bodies j) j M)
    (fun _ _ => 0)
  let s1 := { s with mM := mirrorUpper M }
  let s2 := (setAccelerations s1 backup false).1
  { s2 with massDirty := false }

/-- Skeleton::getMassMatrix (lines 447 to 451): recompute when dirty. -/
def getMassMatrix (env : BodyEnv) (s : Skeleton) : Skeleton :=
  if s.massDirty then updateMassMatrix env s else s

/-- Skeleton::updateInvMassMatrix (lines 611 to 667): back up the generalized
forces; when the articulated-inertia dirty bit is set, run the backward
updateArtInertia pass over all bodies and clear the bit; assemble each column j
by setting the forces to the unit vector, running the backward per-body
updateInvMassMatrix pass and the forward aggregation with its early exit
(mInvM is not cleared first, per the source comment); mirror the strictly lower
triangle from the transpose, restore the forces through the plain
setGenForces, and clear the inverse-mass-matrix dirty bit. -/
def updateInvMassMatrix (env : BodyEnv) (s : Skeleton) : Skeleton × List Event :=
  let n := s.bodies.length
  let backup := s.genForce
  let artTrace :=
    if s.artDirty then (List.range n).reverse.map Event.updateArtInertia else []
  let s1 := if s.artDirty then { s with artDirty := false } else s
  let dof := s.dof
  let colTrace := (List.range dof).flatMap
    (fun _ => (List.range n).reverse.map Event.updateInvMassMatrixNode)
  let M := (List.range dof).foldl
    (fun M j => invAggLoopBreak (invItems env s.bodies j) j M) s.mInvM
  ({ s1 with mInvM := mirrorLower M, genForce := backup, invMassDirty := false },
   artTrace ++ colTrace)

/-- Skeleton::updateInvAugMassMatrix (lines 669 to 714): identical column
structure to updateInvMassMatrix but using the augmented aggregators; the
articulated-inertia dirty bit is neither read nor written anywhere in the
function. -/
def updateInvAugMassMatrix (env : BodyEnv) (s : Skeleton) :
    Skeleton × List Event :=
  let n := s.bodies.length
  let backup := s.genForce
  let dof := s.dof
  let colTrace := (List.range dof).flatMap
    (fun _ => (List.range n).reverse.map Event.updateInvAugMassMatrixNode)
  let M := (List.range dof).foldl
    (fun M j => invAggLoopBreak (invAugItems env s.bodies j) j M) s.mInvAugM
  ({ s with mInvAugM := mirrorLower M, genForce := backup, invAugMassDirty := false },
   colTrace)

/-- Count of per-body updateArtInertia invocations in a trace. -/
def artCount (tr : List Event) : Nat :=
  tr.countP (fun e => match e with | Event.updateArtInertia _ => true | _ => false)

/-- Skeleton::computeImpulseForwardDynamics (lines 1128 to 1175): return at
once when the skeleton is immobile or has no degree of freedom; otherwise run
the backward pass (updateArtInertia then updateBiasImpulse per body when the
articulated-inertia bit is dirty, clearing it; only updateBiasImpulse
otherwise) and the two forward passes. -/
def computeImpulseForwardDynamics (s : Skeleton) : Skeleton × List Event :=
  if s.mobile = false ∨ s.dof = 0 then (s, [])
  else
    let n := s.bodies.length
    let back :=
      if s.artDirty then
        (List.range n).reverse.flatMap
          (fun i => [Event.updateArtInertia i, Event.updateBiasImpulseNode i])
      else (List.range n).reverse.map Event.updateBiasImpulseNode
    let s1 := if s.artDirty then { s with artDirty := false } else s
    let fwd1 := (List.range n).flatMap
      (fun i => [Event.updateJointVelocityChange i, Event.updateBodyImpForceFwdDyn i])
    let fwd2 := (List.range n).flatMap
      (fun i => [Event.updateConstrainedJointBodyAcc i,
                 Event.updateConstrainedTransmittedForce i])
    (s1, back ++ fwd1 ++ fwd2)

/-- The ancestor walk of the updateBiasImpulse overloads: starting from body b,
call the per-body updateBiasImpulse and move to the parent until null.  The
fuel argument bounds the chain length; bodies.length is enough for any tree. -/
def ancestorChainEvents (bodies : List BodyState) : Nat → Nat → List Event
  | _, 0 => []
  | b, fuel + 1 =>
    Event.updateBiasImpulseNode b ::
      match bodies.get? b with
      | some bd =>
        match bd.parent with
        | some p => ancestorChainEvents bodies p fuel
        | none => []
      | none => []

/-- Skeleton::updateBiasImpulse(BodyNode*, Vector6d) (lines 1036 to 1068): set
the body's constraint impulse to the given impulse, walk the ancestor chain
calling updateBiasImpulse on each node, then zero the body's constraint
impulse back out. -/
def updateBiasImpulseVec6 (s : Skeleton) (b : Nat) (imp : List ℚ) :
    Skeleton × List Event :=
  let bodies1 := listModify (fun bd => { bd with constraintImpulse := imp }) b s.bodies
  let s1 := { s with bodies := bodies1 }
  let tr := ancestorChainEvents s1.bodies b s1.bodies.length
  let bodies2 := listModify (fun bd => { bd with constraintImpulse := zero6 }) b s1.bodies
  let s2 := { s1 with bodies := bodies2 }
  (s2, tr)

/-- Look up point mass pi of soft body sb. -/
def getPM (s : Skeleton) (sb pi : Nat) : Option PointMassState :=
  match s.softBodies.get? sb with
  | some sbd => sbd.pointMasses.get? pi
  | none => none

/-- Write value v into the constraint impulse of point mass pi of soft body sb
(PointMass::setConstraintImpulse / setConstraintImpulses). -/
def setPMImpulse (s : Skeleton) (sb pi : Nat) (v : List ℚ) : Skeleton :=
  let f := fun (sbd : SoftBodyState) =>
    { sbd with pointMasses :=
        listModify (fun p => { p with constraintImpulse := v }) pi sbd.pointMasses }
  { s with softBodies := listModify f sb s.softBodies }

/-- Skeleton::updateBiasImpulse(SoftBodyNode*, PointMass*, Vector3d) (lines
1071 to 1103): back up the point mass's constraint impulses, set them to the
given impulse, walk the ancestor chain from the soft body, then restore the
backed-up value exactly. -/
def updateBiasImpulsePointMass (s : Skeleton) (sb pi : Nat) (imp : List ℚ) :
    Skeleton × List Event :=
  let old := getPM s sb pi
  let s1 := setPMImpulse s sb pi imp
  let start := match s.softBodies.get? sb with
    | some sbd => sbd.bodyIndex
    | none => 0
  let tr := ancestorChainEvents s1.bodies start s1.bodies.length
  let s2 := match old with
    | some p => setPMImpulse s1 sb pi p.constraintImpulse
    | none => s1
  (s2, tr)

/-- The Eigen segment assignment: entries k with st ≤ k < st + len get
v (k - st); other entries keep F k. -/
def writeSeg (F : Nat → ℚ) (st len : Nat) (v : Nat → ℚ) : Nat → ℚ :=
  fun k => if st ≤ k ∧ k < st + len then v (k - st) else F k

/-- The soft-body restoring force of one point mass (Skeleton.cpp lines 793 to
802): minus (kv + n ke) times its configuration, minus dt (kv + n ke) times
its velocity, plus the edge contribution ke (q + dt qdot) summed over the
connected point masses (resolved inside the owning soft body's list). -/
def pmExtForce (dt kv ke : ℚ) (pms : List PointMassState)
    (pm : PointMassState) : Nat → ℚ :=
  fun c =>
    (-(kv + (pm.neighbors.length : ℚ) * ke) * pm.q.getD c 0
      - (dt * (kv + (pm.neighbors.length : ℚ) * ke)) * pm.qdot.getD c 0
      + (pm.neighbors.map (fun jn =>
          match pms.get? jn with
          | some nb => ke * (nb.q.getD c 0 + dt * nb.qdot.getD c 0)
          | none => 0)).sum)

/-- The segment write one point mass performs in
Skeleton::updateExternalForceVector (lines 804 to 806): the 3-entry block
starting at the point mass's first skeleton index receives its restoring
force. -/
def pmEntry (dt : ℚ) (sbd : SoftBodyState) (pm : PointMassState) :
    Nat × Nat × (Nat → ℚ) :=
  (pm.iStart, 3, pmExtForce dt sbd.kv sbd.ke sbd.pointMasses pm)

/-- The sequence of 3-entry segment writes performed by the point-mass loops of
Skeleton::updateExternalForceVector (lines 783 to 808), flattened in iteration
order: soft bodies in order, point masses in order within each. -/
def softWrites (dt : ℚ) (softBodies : List SoftBodyState) :
    List (Nat × Nat × (Nat → ℚ)) :=
  (softBodies.map (fun sbd => sbd.pointMasses.map (pmEntry dt sbd))).flatten

/-- Apply a sequence of segment writes in order. -/
def applyWrites (F : Nat → ℚ) (ws : List (Nat × Nat × (Nat → ℚ))) : Nat → ℚ :=
  ws.foldl (fun F w => writeSeg F w.1 w.2.1 w.2.2) F

/-- The backward aggregateExternalForces pass over the bodies (lines 777 to
781): zero the vector, then every body, from last to first, writes its joint
block with the values the environment provides. -/
def rigidFext (env : BodyEnv) (bodies : List BodyState) : Nat → ℚ :=
  bodies.enum.reverse.foldl
    (fun F p => writeSeg F p.2.joint.iStart p.2.joint.dof (env.aggFext p.1))
    (fun _ => 0)

/-- Skeleton::updateExternalForceVector (lines 773 to 811): zero mFext, run the
backward aggregateExternalForces pass over the bodies (each writing its joint
block, values from the environment), then for every soft body and point mass
assign the restoring force into the 3-entry block starting at the point mass's
first skeleton index; finally clear the external-force dirty bit. -/
def updateExternalForceVector (env : BodyEnv) (s : Skeleton) : Skeleton :=
  let F2 := applyWrites (rigidFext env s.bodies) (softWrites s.timeStep s.softBodies)
  { s with mFext := F2, extForceDirty := false }

/-- Skeleton::getExternalForceVector (lines 489 to 493): recompute when
dirty. -/
def getExternalForceVector (env : BodyEnv) (s : Skeleton) : Skeleton :=
  if s.extForceDirty then updateExternalForceVector env s else s

/-- Checks that every point mass processed after point mass pi of soft body sb
has its 3-entry block disjoint from that point mass's block (invariant 4 of the
spec: point-mass coordinate blocks are pairwise disjoint). -/
def laterDisjointB (s : Skeleton) (sb pi : Nat) : Bool :=
  match s.softBodies.get? sb with
  | none => false
  | some sbd =>
    match sbd.pointMasses.get? pi with
    | none => false
    | some pm =>
      ((sbd.pointMasses.drop (pi + 1)).all fun p =>
          decide (p.iStart + 3 ≤ pm.iStart) || decide (pm.iStart + 3 ≤ p.iStart))
      && ((s.softBodies.drop (sb + 1)).all fun sb2 =>
            sb2.pointMasses.all fun p =>
              decide (p.iStart + 3 ≤ pm.iStart) || decide (pm.iStart + 3 ≤ p.iStart))

/-- Modelled from the spec: Joint::integratePositions advances the joint's
position coordinates by dt times the matching velocity coordinates.  Applied to
the flat position list on the joint's index block. -/
def integrateSeg (pos vel : List ℚ) (st len : Nat) (dt : ℚ) : List ℚ :=
  pos.enum.map fun p =>
    if st ≤ p.1 ∧ p.1 < st + len then p.2 + dt * vel.getD p.1 0 else p.2

/-- Modelled from the spec: PointMass::integrateConfigs and integrateGenVels
advance a 3-vector by dt times its derivative, componentwise. -/
def vecAddScaled (a b : List ℚ) (dt : ℚ) : List ℚ :=
  a.enum.map fun p => p.2 + dt * b.getD p.1 0

/-- Skeleton::integrateConfigs (lines 370 to 380): delegate to every joint's
integratePositions and every point mass's integrateConfigs.  No dirty flag is
touched and no forward-kinematics refresh is performed. -/
def integrateConfigs (s : Skeleton) (dt : ℚ) : Skeleton :=
  let pos1 := s.bodies.foldl
    (fun pos b => integrateSeg pos s.genVel b.joint.iStart b.joint.dof dt)
    s.genPos
  let soft1 := s.softBodies.map fun sbd =>
    { sbd with pointMasses := sbd.pointMasses.map fun p =>
        { p with q := vecAddScaled p.q p.qdot dt } }
  { s with genPos := pos1, softBodies := soft1 }

/-- Skeleton::integrateGenVels (lines 383 to 393): delegate to every joint's
integrateVelocities and every point mass's integrateGenVels.  No dirty flag is
touched and no forward-kinematics refresh is performed. -/
def integrateGenVels (s : Skeleton) (dt : ℚ) : Skeleton :=
  let vel1 := s.bodies.foldl
    (fun vel b => integrateSeg vel s.genAcc b.joint.iStart b.joint.dof dt)
    s.genVel
  let soft1 := s.softBodies.map fun sbd =>
    { sbd with pointMasses := sbd.pointMasses.map fun p =>
        { p with qdot := vecAddScaled p.qdot p.qddot dt } }
  { s with genVel := vel1, softBodies := soft1 }

/-- The tuple of Skeleton cache dirty bits, in declaration order. -/
def dirtyFlags (s : Skeleton) : List Bool :=
  [s.artDirty, s.massDirty, s.augMassDirty, s.invMassDirty, s.invAugMassDirty,
   s.coriolisDirty, s.gravityDirty, s.combinedDirty, s.extForceDirty,
   s.dampingDirty]

/-- The stored child order of body i (BodyNode::getChildBodyNode). -/
def childrenOf (bodies : List BodyState) (i : Nat) : List Nat :=
  match bodies.get? i with
  | some b => b.children
  | none => []

/-- The parent body of body i (BodyNode::getParentBodyNode). -/
def parentOf (bodies : List BodyState) (i : Nat) : Option Nat :=
  match bodies.get? i with
  | some b => b.parent
  | none => none

/-- The BFS loop of Skeleton::init (lines 156 to 167): pop the queue front,
append it to the fresh sequence, enqueue its children in stored order.  The
fuel argument bounds the number of iterations; with fuel at least the number of
reachable nodes the function computes exactly what the C++ while loop does, and
every theorem below holds for every fuel. -/
def bfsLoop (bodies : List BodyState) : List Nat → Nat → List Nat
  | _, 0 => []
  | [], _ + 1 => []
  | q :: qs, fuel + 1 => q :: bfsLoop bodies (qs ++ childrenOf bodies q) fuel

/-- The reordering of mBodyNodes computed by Skeleton::init: BFS from the
original first element (index 0 names it). -/
def bfsReorder (bodies : List BodyState) (fuel : Nat) : List Nat :=
  bfsLoop bodies [0] fuel

/-- Checks that the stored child lists and parent pointers agree: every child
of every body is a valid index whose parent pointer names that body.  This is
the tree-shape precondition of Skeleton::init. -/
def childParentOK (bodies : List BodyState) : Bool :=
  (List.range bodies.length).all fun p =>
    (childrenOf bodies p).all fun c =>
      decide (c < bodies.length) && (parentOf bodies c == some p)

/-- Checks the monotone joint-range condition along the backward mass-matrix
iteration sequence: every later item's index range ends at or before every
earlier item's start (dof-0 joints exempt).  Established by the BFS order of
init, per the spec. -/
def massMonoOK : List (JointInfo × (Nat → ℚ)) → Bool
  | [] => true
  | a :: l =>
    (l.all fun b =>
      (a.1.dof == 0) || (b.1.dof == 0) || decide (b.1.iStart + b.1.dof ≤ a.1.iStart))
    && massMonoOK l

/-- Checks the monotone joint-range condition along the forward
inverse-mass-matrix iteration sequence: every earlier item's index range ends
at or before every later item's start (dof-0 joints exempt). -/
def invMonoOK : List (JointInfo × (Nat → ℚ)) → Bool
  | [] => true
  | a :: l =>
    (l.all fun b =>
      (a.1.dof == 0) || (b.1.dof == 0) || decide (a.1.iStart + a.1.dof ≤ b.1.iStart))
    && invMonoOK l

/-- A body-contract environment whose aggregate values are all zero, for the
concrete witnesses. -/
def env0 : BodyEnv :=
  { aggMM := fun _ _ _ => 0
    aggInvMM := fun _ _ _ => 0
    aggInvAugMM := fun _ _ _ => 0
    aggFext := fun _ _ => 0 }

/-- A one-body, one-dof skeleton used by the concrete witnesses: all caches
clean except the ones each witness dirties. -/
def baseSkel : Skeleton :=
  { bodies := [{ joint := { iStart := 0, dof := 1 }, parent := none,
                 children := [], constraintImpulse := zero6,
                 jacobianDirty := false, jacobianDerivDirty := false }]
    softBodies := []
    genPos := [0]
    genVel := [0]
    genAcc := [0]
    genForce := [0]
    mobile := true
    timeStep := 1 / 1000
    gravity := [0, 0, -981 / 100]
    mM := fun _ _ => 0
    mAugM := fun _ _ => 0
    mInvM := fun _ _ => 0
    mInvAugM := fun _ _ => 0
    mFext := fun _ => 0
    artDirty := false
    massDirty := false
    augMassDirty := false
    invMassDirty := false
    invAugMassDirty := false
    coriolisDirty := false
    gravityDirty := false
    combinedDirty := false
    extForceDirty := false
    dampingDirty := false }

/-- The concrete input of the C2 counterexample: the one-body skeleton with a
stale mass matrix but every other cache valid. -/
def skelC2 : Skeleton := { baseSkel with massDirty := true }

/-- The concrete input of the C5 counterexample: the one-body skeleton with a
nonzero joint velocity and every cache valid. -/
def skelC5 : Skeleton := { baseSkel with genVel := [1] }

/-- The concrete input of the C8 witness: the one-body skeleton made
immobile. -/
def skelIm : Skeleton := { baseSkel with mobile := false }

/-- The concrete two-body chain of the C4 witness: joints with contiguous
index ranges 0 and 1. -/
def skel4 : Skeleton :=
  { baseSkel with
      bodies :=
        [{ joint := { iStart := 0, dof := 1 }, parent := none, children := [1],
           constraintImpulse := zero6, jacobianDirty := false,
           jacobianDerivDirty := false },
         { joint := { iStart := 1, dof := 1 }, parent := some 0, children := [],
           constraintImpulse := zero6, jacobianDirty := false,
           jacobianDerivDirty := false }]
      genPos := [0, 0]
      genVel := [0, 0]
      genAcc := [0, 0]
      genForce := [0, 0] }

/-- The concrete three-body tree of the C3 witness: a root with two children,
registered root-first. -/
def bodies3 : List BodyState :=
  [{ joint := { iStart := 0, dof := 1 }, parent := none, children := [1, 2],
     constraintImpulse := zero6, jacobianDirty := false,
     jacobianDerivDirty := false },
   { joint := { iStart := 1, dof := 1 }, parent := some 0, children := [],
     constraintImpulse := zero6, jacobianDirty := false,
     jacobianDerivDirty := false },
   { joint := { iStart := 2, dof := 1 }, parent := some 0, children := [],
     constraintImpulse := zero6, jacobianDirty := false,
     jacobianDerivDirty := false }]

/-- The concrete soft-body skeleton of the C7 witness: one rigid body carrying
one point mass, all constraint impulses zero. -/
def skel7 : Skeleton :=
  { baseSkel with
      softBodies :=
        [{ bodyIndex := 0, kv := 0, ke := 0,
           pointMasses :=
             [{ iStart := 1, q := [0, 0, 0], qdot := [0, 0, 0],
                qddot := [0, 0, 0], neighbors := [],
                constraintImpulse := [0, 0, 0] }] }] }

/-- The concrete point mass of the C9 witness: no neighbors, configuration
(1/10, 0, 0), zero velocity, first skeleton index 0. -/
def pm9 : PointMassState :=
  { iStart := 0, q := [1 / 10, 0, 0], qdot := [0, 0, 0], qddot := [0, 0, 0],
    neighbors := [], constraintImpulse := [0, 0, 0] }

/-- The concrete soft body of the C9 witness: vertex stiffness 10, edge
stiffness 0, one point mass. -/
def sb9 : SoftBodyState :=
  { bodyIndex := 0, kv := 10, ke := 0, pointMasses := [pm9] }

/-- The concrete scenario of the C9 witness: one soft body with a single point
mass with no neighbors, vertex stiffness 10, time step 1/100. -/
def skel9 : Skeleton :=
  { baseSkel with
      bodies := []
      softBodies := [sb9]
      timeStep := 1 / 100
      genPos := [0, 0, 0]
      genVel := [0, 0, 0]
      genAcc := [0, 0, 0]
      genForce := [0, 0, 0] }

/-- Write v into a body's constraint impulse. -/
def setImpulseBody (v : List ℚ) : BodyState → BodyState :=
  fun bd => { bd with constraintImpulse := v }

/-- Write v into a point mass's constraint impulse. -/
def setImpulsePM (v : List ℚ) : PointMassState → PointMassState :=
  fun p => { p with constraintImpulse := v }

/-- Write v into the constraint impulse of point mass pi of a soft body. -/
def setImpulseSB (v : List ℚ) (pi : Nat) : SoftBodyState → SoftBodyState :=
  fun sbd =>
    { sbd with pointMasses := listModify (setImpulsePM v) pi sbd.pointMasses }

/-! Theorems. -/

theorem mirrorUpper_symm (M : Nat → Nat → ℚ) (r c : Nat) :
    mirrorUpper M r c = mirrorUpper M c r := by
  unfold mirrorUpper
  rcases lt_trichotomy r c with h | h | h
  · rw [if_pos h, if_neg (by omega)]
  · subst h; rfl
  · rw [if_neg (by omega), if_pos h]

/-- C1: for every skeleton with dof > 0, after updateMassMatrix completes the
matrix mM is symmetric: the strictly upper triangle was mirrored from the
lower triangle filled by the backward aggregation, so mM equals its own
transpose entrywise. -/
theorem massMatrix_symmetric (env : BodyEnv) (s : Skeleton) (h : 0 < s.dof)
    (r c : Nat) :
    (updateMassMatrix env s).mM r c = (updateMassMatrix env s).mM c r :=
  mirrorUpper_symm _ r c

/-- Witness for C1 at the concrete one-body skeleton. -/
theorem massMatrix_symmetric_witness :
    0 < baseSkel.dof ∧
      ∀ r c, (updateMassMatrix env0 baseSkel).mM r c
        = (updateMassMatrix env0 baseSkel).mM c r :=
  ⟨by decide, fun r c => massMatrix_symmetric env0 baseSkel (by decide) r c⟩

/-- C2 counterexample: on the one-body skeleton whose mass matrix alone is
stale, getMassMatrix (which triggers updateMassMatrix) flips the
inverse-mass-matrix and Coriolis validity bits from valid to dirty, because
the restore step calls Skeleton::setAccelerations, which invokes
computeForwardKinematics and raises every cache flag.  So public state other
than the accelerations does change. -/
theorem getMassMatrix_invalidates_cex :
    skelC2.invMassDirty = false ∧ skelC2.coriolisDirty = false ∧
    (getMassMatrix env0 skelC2).invMassDirty = true ∧
    (getMassMatrix env0 skelC2).coriolisDirty = true :=
  ⟨rfl, rfl, rfl, rfl⟩

/-- C2 amended: updateMassMatrix restores the generalized accelerations and
leaves positions, velocities, forces, the soft bodies, mobility and time step
unchanged, and clears the mass-matrix dirty bit; but the restoring
setAccelerations call raises the dirty bit of every other cached quantity
(articulated inertia, augmented mass matrix, both inverses, Coriolis, gravity,
combined, external forces), so previously valid caches are invalidated. -/
theorem updateMassMatrix_effect (env : BodyEnv) (s : Skeleton) (h : 0 < s.dof) :
    (updateMassMatrix env s).genAcc = s.genAcc ∧
    (updateMassMatrix env s).genPos = s.genPos ∧
    (updateMassMatrix env s).genVel = s.genVel ∧
    (updateMassMatrix env s).genForce = s.genForce ∧
    (updateMassMatrix env s).mobile = s.mobile ∧
    (updateMassMatrix env s).timeStep = s.timeStep ∧
    (updateMassMatrix env s).softBodies = s.softBodies ∧
    (updateMassMatrix env s).massDirty = false ∧
    (updateMassMatrix env s).artDirty = true ∧
    (updateMassMatrix env s).augMassDirty = true ∧
    (updateMassMatrix env s).invMassDirty = true ∧
    (updateMassMatrix env s).invAugMassDirty = true ∧
    (updateMassMatrix env s).coriolisDirty = true ∧
    (updateMassMatrix env s).gravityDirty = true ∧
    (updateMassMatrix env s).combinedDirty = true ∧
    (updateMassMatrix env s).extForceDirty = true ∧
    (updateMassMatrix env s).dampingDirty = s.dampingDirty :=
  ⟨rfl, rfl, rfl, rfl, rfl, rfl, rfl, rfl, rfl, rfl, rfl, rfl, rfl, rfl, rfl,
   rfl, rfl⟩

/-- Witness for the amended C2 theorem at the concrete skeleton. -/
theorem updateMassMatrix_effect_witness :
    0 < skelC2.dof ∧ (updateMassMatrix env0 skelC2).genAcc = skelC2.genAcc :=
  ⟨by decide, (updateMassMatrix_effect env0 skelC2 (by decide)).1⟩

/-- C5 amended: integrateConfigs and integrateGenVels mutate the generalized
positions respectively velocities through every joint and point mass but touch
no dirty flag at all: every cache validity bit is exactly what it was before
the call.  The setters that go through computeForwardKinematics, by contrast,
raise every cache flag except the (commented-out) damping one. -/
theorem integrate_flags_unchanged (s : Skeleton) (dt : ℚ) :
    dirtyFlags (integrateConfigs s dt) = dirtyFlags s ∧
    dirtyFlags (integrateGenVels s dt) = dirtyFlags s ∧
    ∀ uT uV uA : Bool,
      dirtyFlags (computeForwardKinematics uT uV uA s).1 =
        [true, true, true, true, true, true, true, true, true, s.dampingDirty] :=
  ⟨rfl, rfl, fun _ _ _ => rfl⟩

/-- C5 counterexample: on the one-body skeleton with unit joint velocity and
every cache valid, integrateConfigs changes the generalized positions yet sets
no dirty flag: the mass-matrix flag (and every other flag) stays clear, so the
cached quantities that depend on positions are not invalidated. -/
theorem integrateConfigs_no_dirty_cex :
    (integrateConfigs skelC5 1).genPos ≠ skelC5.genPos ∧
    dirtyFlags skelC5 =
      [false, false, false, false, false, false, false, false, false, false] ∧
    dirtyFlags (integrateConfigs skelC5 1) = dirtyFlags skelC5 := by
  refine ⟨?_, rfl, rfl⟩
  intro hEq
  have h1 : ((0 : ℚ) + 1 * 1) = 0 := by
    have h2 : (integrateConfigs skelC5 1).genPos = [(0 : ℚ) + 1 * 1] := rfl
    have h3 : skelC5.genPos = [(0 : ℚ)] := rfl
    rw [h2, h3] at hEq
    exact ((List.cons.injEq _ _ _ _).mp hEq).1
  norm_num at h1

theorem artCount_append (a b : List Event) :
    artCount (a ++ b) = artCount a + artCount b := by
  simp [artCount, List.countP_append]

theorem artCount_invNode (l : List Nat) :
    artCount (l.map Event.updateInvMassMatrixNode) = 0 := by
  induction l with
  | nil => rfl
  | cons a l ih => simp [artCount, List.countP_cons] at ih ⊢

theorem artCount_invAugNode (l : List Nat) :
    artCount (l.map Event.updateInvAugMassMatrixNode) = 0 := by
  induction l with
  | nil => rfl
  | cons a l ih => simp [artCount, List.countP_cons] at ih ⊢

theorem artCount_artMap (l : List Nat) :
    artCount (l.map Event.updateArtInertia) = l.length := by
  induction l with
  | nil => rfl
  | cons a l ih => simp [artCount, List.countP_cons] at ih ⊢

theorem artCount_reverse (l : List Event) : artCount l.reverse = artCount l := by
  induction l with
  | nil => rfl
  | cons a l ih =>
    rw [List.reverse_cons, artCount_append, ih]
    simp [artCount, List.countP_cons]

theorem artCount_flatMap_zero (l : List Nat) (f : Nat → List Event)
    (h : ∀ j, artCount (f j) = 0) : artCount (l.flatMap f) = 0 := by
  induction l with
  | nil => rfl
  | cons a l ih => rw [List.flatMap_cons, artCount_append, h a, ih]

/-- C6: updateInvMassMatrix runs the backward articulated-inertia pass over all
bodies and clears the articulated-inertia dirty flag exactly when that flag is
set on entry (the flag is false on exit in either case, and the trace holds one
updateArtInertia call per body when it was set, none otherwise); whereas
updateInvAugMassMatrix performs no articulated-inertia update, leaves the flag
exactly as it was, and its entire result is independent of the flag's value. -/
theorem invMassMatrix_artInertia (env : BodyEnv) (s : Skeleton) (b : Bool) :
    (updateInvMassMatrix env s).1.artDirty = false ∧
    artCount (updateInvMassMatrix env s).2 =
      (if s.artDirty then s.bodies.length else 0) ∧
    (updateInvAugMassMatrix env s).1.artDirty = s.artDirty ∧
    artCount (updateInvAugMassMatrix env s).2 = 0 ∧
    updateInvAugMassMatrix env { s with artDirty := b } =
      ({ (updateInvAugMassMatrix env s).1 with artDirty := b },
       (updateInvAugMassMatrix env s).2) := by
  have htr : (updateInvMassMatrix env s).2 =
      (if s.artDirty then
        (List.range s.bodies.length).reverse.map Event.updateArtInertia else []) ++
      (List.range s.dof).flatMap
        (fun _ => (List.range s.bodies.length).reverse.map
          Event.updateInvMassMatrixNode) := rfl
  have htr2 : (updateInvAugMassMatrix env s).2 =
      (List.range s.dof).flatMap
        (fun _ => (List.range s.bodies.length).reverse.map
          Event.updateInvAugMassMatrixNode) := rfl
  have hcol : artCount ((List.range s.dof).flatMap
      (fun _ => (List.range s.bodies.length).reverse.map
        Event.updateInvMassMatrixNode)) = 0 :=
    artCount_flatMap_zero _ _ (fun _ => artCount_invNode _)
  refine ⟨?_, ?_, rfl, ?_, rfl⟩
  · cases h : s.artDirty <;> simp [updateInvMassMatrix, h]
  · rw [htr, artCount_append, hcol]
    cases h : s.artDirty
    · simp [h, artCount]
    · simp [h, artCount_reverse, artCount_artMap]
  · rw [htr2]
    exact artCount_flatMap_zero _ _ (fun _ => artCount_invAugNode _)

/-- C8: computeImpulseForwardDynamics on an immobile or zero-dof skeleton
returns immediately: the state is unchanged and no per-body update is
invoked. -/
theorem impulseFwdDyn_noop (s : Skeleton) (h : s.mobile = false ∨ s.dof = 0) :
    computeImpulseForwardDynamics s = (s, []) := by
  unfold computeImpulseForwardDynamics
  rw [if_pos h]

/-- Witness for C8 at the concrete immobile skeleton. -/
theorem impulseFwdDyn_noop_witness :
    (skelIm.mobile = false ∨ skelIm.dof = 0) ∧
      computeImpulseForwardDynamics skelIm = (skelIm, []) :=
  ⟨Or.inl rfl, impulseFwdDyn_noop skelIm (Or.inl rfl)⟩

/-- C10: setVelocities calls computeForwardKinematics with the transform flag
hard-coded to false, so no per-body updateTransform is invoked whatever flags
are passed; setAccelerations hard-codes both the transform and velocity flags
to false, so it invokes neither updateTransform nor updateVelocity (nor
updatePartialAcceleration) on any body. -/
theorem setters_skip_kinematics (s : Skeleton) (v a : List ℚ)
    (uV uA uA2 : Bool) :
    (∀ i, Event.updateTransform i ∉ (setVelocities s v uV uA).2) ∧
    (∀ i, Event.updateTransform i ∉ (setAccelerations s a uA2).2) ∧
    (∀ i, Event.updateVelocity i ∉ (setAccelerations s a uA2).2) ∧
    (∀ i, Event.updatePartialAcceleration i ∉ (setAccelerations s a uA2).2) := by
  refine ⟨?_, ?_, ?_, ?_⟩ <;> intro i <;>
    cases uV <;> cases uA <;> cases uA2 <;>
      simp [setVelocities, setAccelerations, computeForwardKinematics,
        List.mem_flatMap]

theorem massMonoOK_cons (it : JointInfo × (Nat → ℚ))
    (rest : List (JointInfo × (Nat → ℚ))) (h : massMonoOK (it :: rest) = true) :
    (∀ b ∈ rest,
      it.1.dof = 0 ∨ b.1.dof = 0 ∨ b.1.iStart + b.1.dof ≤ it.1.iStart) ∧
    massMonoOK rest = true := by
  unfold massMonoOK at h
  rw [Bool.and_eq_true] at h
  refine ⟨?_, h.2⟩
  intro b hb
  have hball := List.all_eq_true.mp h.1 b hb
  simp only [Bool.or_eq_true, beq_iff_eq, decide_eq_true_eq] at hball
  tauto

theorem invMonoOK_cons (it : JointInfo × (Nat → ℚ))
    (rest : List (JointInfo × (Nat → ℚ))) (h : invMonoOK (it :: rest) = true) :
    (∀ b ∈ rest,
      it.1.dof = 0 ∨ b.1.dof = 0 ∨ it.1.iStart + it.1.dof ≤ b.1.iStart) ∧
    invMonoOK rest = true := by
  unfold invMonoOK at h
  rw [Bool.and_eq_true] at h
  refine ⟨?_, h.2⟩
  intro b hb
  have hball := List.all_eq_true.mp h.1 b hb
  simp only [Bool.or_eq_true, beq_iff_eq, decide_eq_true_eq] at hball
  tauto

theorem aggLoopFull_cons (it : JointInfo × (Nat → ℚ))
    (rest : List (JointInfo × (Nat → ℚ))) (j : Nat) (M : Nat → Nat → ℚ) :
    aggLoopFull (it :: rest) j M = aggLoopFull rest j (writeBlock M it.1 it.2 j) :=
  rfl

theorem aggLoopFull_eq_of_not_covered (j r c : Nat) :
    ∀ (items : List (JointInfo × (Nat → ℚ))) (M : Nat → Nat → ℚ),
      (∀ it ∈ items, ¬(c = j ∧ it.1.iStart ≤ r ∧ r < it.1.iStart + it.1.dof)) →
      aggLoopFull items j M r c = M r c := by
  intro items
  induction items with
  | nil => intro M _; rfl
  | cons it rest ih =>
    intro M h
    rw [aggLoopFull_cons, ih _ (fun u hu => h u (List.mem_cons_of_mem _ hu))]
    unfold writeBlock
    rw [if_neg (h it (List.mem_cons_self _ _))]

theorem massAggLoopBreak_cons (it : JointInfo × (Nat → ℚ))
    (rest : List (JointInfo × (Nat → ℚ))) (j : Nat) (M : Nat → Nat → ℚ) :
    massAggLoopBreak (it :: rest) j M =
      if 0 < it.1.dof ∧ it.1.iStart + it.1.dof < j then writeBlock M it.1 it.2 j
      else massAggLoopBreak rest j (writeBlock M it.1 it.2 j) := rfl

theorem invAggLoopBreak_cons (it : JointInfo × (Nat → ℚ))
    (rest : List (JointInfo × (Nat → ℚ))) (j : Nat) (M : Nat → Nat → ℚ) :
    invAggLoopBreak (it :: rest) j M =
      if 0 < it.1.dof ∧ j < it.1.iStart + it.1.dof then writeBlock M it.1 it.2 j
      else invAggLoopBreak rest j (writeBlock M it.1 it.2 j) := rfl

theorem massAggLoopBreak_eq_full (j : Nat) :
    ∀ (items : List (JointInfo × (Nat → ℚ))) (M : Nat → Nat → ℚ),
      massMonoOK items = true →
      ∀ r c, c ≤ r →
        massAggLoopBreak items j M r c = aggLoopFull items j M r c := by
  intro items
  induction items with
  | nil => intro M _ r c _; rfl
  | cons it rest ih =>
    intro M hmono r c hrc
    obtain ⟨hhead, htail⟩ := massMonoOK_cons it rest hmono
    rw [massAggLoopBreak_cons, aggLoopFull_cons]
    by_cases hbr : 0 < it.1.dof ∧ it.1.iStart + it.1.dof < j
    · rw [if_pos hbr]
      symm
      apply aggLoopFull_eq_of_not_covered
      intro u hu hcov
      obtain ⟨hcj, hle, hlt⟩ := hcov
      subst hcj
      rcases hhead u hu with h0 | h0 | h0 <;> omega
    · rw [if_neg hbr]
      exact ih _ htail r c hrc

theorem invAggLoopBreak_eq_full (j : Nat) :
    ∀ (items : List (JointInfo × (Nat → ℚ))) (M : Nat → Nat → ℚ),
      invMonoOK items = true →
      ∀ r c, r ≤ c →
        invAggLoopBreak items j M r c = aggLoopFull items j M r c := by
  intro items
  induction items with
  | nil => intro M _ r c _; rfl
  | cons it rest ih =>
    intro M hmono r c hrc
    obtain ⟨hhead, htail⟩ := invMonoOK_cons it rest hmono
    rw [invAggLoopBreak_cons, aggLoopFull_cons]
    by_cases hbr : 0 < it.1.dof ∧ j < it.1.iStart + it.1.dof
    · rw [if_pos hbr]
      symm
      apply aggLoopFull_eq_of_not_covered
      intro u hu hcov
      obtain ⟨hcj, hle, hlt⟩ := hcov
      subst hcj
      rcases hhead u hu with h0 | h0 | h0 <;> omega
    · rw [if_neg hbr]
      exact ih _ htail r c hrc

/-- C4: under the monotone joint-index-range condition that the BFS order of
init establishes, the backward mass-matrix aggregation with its early exit
(break when iStart + dof < j) computes exactly the same entries of the
nontrivial lower triangle (column at most row) as the same recursion run over
all bodies without the break; and the forward inverse-mass-matrix aggregation
with its early exit (break when iStart + dof > j) computes exactly the same
entries of its nontrivial upper triangle (row at most column) as the full
traversal. -/
theorem earlyExit_equiv (env : BodyEnv) (s : Skeleton) (j1 j2 : Nat)
    (M1 M2 : Nat → Nat → ℚ)
    (h1 : massMonoOK (massItems env s.bodies j1) = true)
    (h2 : invMonoOK (invItems env s.bodies j2) = true) :
    (∀ r c, c ≤ r →
      massAggLoopBreak (massItems env s.bodies j1) j1 M1 r c =
        aggLoopFull (massItems env s.bodies j1) j1 M1 r c) ∧
    (∀ r c, r ≤ c →
      invAggLoopBreak (invItems env s.bodies j2) j2 M2 r c =
        aggLoopFull (invItems env s.bodies j2) j2 M2 r c) :=
  ⟨fun r c h => massAggLoopBreak_eq_full j1 _ M1 h1 r c h,
   fun r c h => invAggLoopBreak_eq_full j2 _ M2 h2 r c h⟩

/-- Witness for C4 at the concrete two-body chain, column 1. -/
theorem earlyExit_equiv_witness :
    massMonoOK (massItems env0 skel4.bodies 1) = true ∧
    invMonoOK (invItems env0 skel4.bodies 1) = true ∧
    (∀ r c, c ≤ r →
      massAggLoopBreak (massItems env0 skel4.bodies 1) 1 (fun _ _ => 0) r c =
        aggLoopFull (massItems env0 skel4.bodies 1) 1 (fun _ _ => 0) r c) :=
  ⟨by decide, by decide,
   (earlyExit_equiv env0 skel4 1 1 (fun _ _ => 0) (fun _ _ => 0)
     (by decide) (by decide)).1⟩

theorem childParentOK_spec (bodies : List BodyState)
    (hok : childParentOK bodies = true) :
    ∀ p, p < bodies.length → ∀ c ∈ childrenOf bodies p,
      c < bodies.length ∧ parentOf bodies c = some p := by
  intro p hp c hc
  unfold childParentOK at hok
  have h1 := List.all_eq_true.mp hok p (List.mem_range.mpr hp)
  have h2 := List.all_eq_true.mp h1 c hc
  simp only [Bool.and_eq_true, decide_eq_true_eq, beq_iff_eq] at h2
  exact h2

theorem bfsLoop_parent_mem (bodies : List BodyState)
    (hok : childParentOK bodies = true) :
    ∀ (fuel : Nat) (queue done : List Nat),
      (∀ b ∈ queue, b < bodies.length) →
      (∀ b ∈ queue, ∀ p, parentOf bodies b = some p → p ∈ done) →
      ∀ (i : Nat) (hi : i < (bfsLoop bodies queue fuel).length) (p : Nat),
        parentOf bodies ((bfsLoop bodies queue fuel).get ⟨i, hi⟩) = some p →
        p ∈ done ∨ ∃ k, ∃ hk : k < (bfsLoop bodies queue fuel).length,
          k < i ∧ (bfsLoop bodies queue fuel).get ⟨k, hk⟩ = p := by
  intro fuel
  induction fuel with
  | zero =>
    intro queue done _ _ i hi
    exact absurd hi (by simp [bfsLoop])
  | succ f ih =>
    intro queue done hqv hqp i hi p hp
    cases queue with
    | nil => exact absurd hi (by simp [bfsLoop])
    | cons q qs =>
      have hq : q < bodies.length := hqv q (List.mem_cons_self _ _)
      cases i with
      | zero =>
        exact Or.inl (hqp q (List.mem_cons_self _ _) p hp)
      | succ i2 =>
        have hlen : (bfsLoop bodies (q :: qs) (f + 1)).length =
            (bfsLoop bodies (qs ++ childrenOf bodies q) f).length + 1 := rfl
        have hi2 : i2 < (bfsLoop bodies (qs ++ childrenOf bodies q) f).length := by
          omega
        have hqv2 : ∀ b ∈ qs ++ childrenOf bodies q, b < bodies.length := by
          intro b hb
          rcases List.mem_append.mp hb with hb | hb
          · exact hqv b (List.mem_cons_of_mem _ hb)
          · exact (childParentOK_spec bodies hok q hq b hb).1
        have hqp2 : ∀ b ∈ qs ++ childrenOf bodies q, ∀ p2,
            parentOf bodies b = some p2 → p2 ∈ done ++ [q] := by
          intro b hb p2 hp2
          rcases List.mem_append.mp hb with hb | hb
          · exact List.mem_append.mpr
              (Or.inl (hqp b (List.mem_cons_of_mem _ hb) p2 hp2))
          · have hpar := (childParentOK_spec bodies hok q hq b hb).2
            rw [hpar] at hp2
            have : p2 = q := (Option.some.inj hp2).symm
            subst this
            exact List.mem_append.mpr (Or.inr (List.mem_singleton.mpr rfl))
        have hp2 : parentOf bodies
            ((bfsLoop bodies (qs ++ childrenOf bodies q) f).get ⟨i2, hi2⟩) =
            some p := hp
        rcases ih (qs ++ childrenOf bodies q) (done ++ [q]) hqv2 hqp2 i2 hi2 p hp2
          with hdone | ⟨k, hk, hki, hkp⟩
        · rcases List.mem_append.mp hdone with hd | hd
          · exact Or.inl hd
          · right
            have hpq : p = q := List.mem_singleton.mp hd
            refine ⟨0, by omega, Nat.succ_pos i2, ?_⟩
            exact hpq.symm
        · right
          refine ⟨k + 1, by omega, by omega, ?_⟩
          exact hkp

/-- C3: for a body list whose stored child lists and parent pointers form a
consistent tree rooted at the original first element (every child's parent
pointer names the body listing it, the first element is parent-less), the BFS
reordering computed by init yields a sequence whose first element is the
original first element and in which the parent of every later element occurs
at a strictly smaller index: every parent precedes its descendants. -/
theorem init_bfs_order (bodies : List BodyState) (fuel : Nat)
    (hok : childParentOK bodies = true)
    (hroot : parentOf bodies 0 = none)
    (hne : 0 < bodies.length) :
    (0 < fuel → (bfsReorder bodies fuel).head? = some 0) ∧
    ∀ (i : Nat) (hi : i < (bfsReorder bodies fuel).length) (p : Nat),
      parentOf bodies ((bfsReorder bodies fuel).get ⟨i, hi⟩) = some p →
      ∃ k, ∃ hk : k < (bfsReorder bodies fuel).length,
        k < i ∧ (bfsReorder bodies fuel).get ⟨k, hk⟩ = p := by
  constructor
  · intro hf
    match fuel, hf with
    | f + 1, _ => rfl
  · intro i hi p hp
    have h := bfsLoop_parent_mem bodies hok fuel [0] []
      (by intro b hb; rw [List.mem_singleton.mp hb]; exact hne)
      (by
        intro b hb p2 hp2
        rw [List.mem_singleton.mp hb] at hp2
        rw [hroot] at hp2
        cases hp2)
      i hi p hp
    rcases h with hdone | hex
    · exact absurd hdone (List.not_mem_nil p)
    · exact hex

/-- Witness for C3 at the concrete three-body tree. -/
theorem init_bfs_order_witness :
    childParentOK bodies3 = true ∧ parentOf bodies3 0 = none ∧
    0 < bodies3.length ∧ (0 < 3 → (bfsReorder bodies3 3).head? = some 0) :=
  ⟨by decide, by decide, by decide,
   (init_bfs_order bodies3 3 (by decide) (by decide) (by decide)).1⟩

theorem listModify_oob (f : α → α) (n : Nat) (l : List α) (h : l.length ≤ n) :
    listModify f n l = l := by
  induction l generalizing n with
  | nil => cases n <;> rfl
  | cons a l ih =>
    cases n with
    | zero => exact absurd h (by simp)
    | succ m =>
      show a :: listModify f m l = a :: l
      rw [ih m (by simpa using h)]

theorem listModify_listModify (f g : α → α) (n : Nat) (l : List α) :
    listModify f n (listModify g n l) = listModify (fun a => f (g a)) n l := by
  induction l generalizing n with
  | nil => cases n <;> rfl
  | cons a l ih =>
    cases n with
    | zero => rfl
    | succ m =>
      show a :: listModify f m (listModify g m l) = a :: listModify _ m l
      rw [ih]

theorem listModify_id_of (f : α → α) (n : Nat) (l : List α)
    (h : ∀ hn : n < l.length, f (l.get ⟨n, hn⟩) = l.get ⟨n, hn⟩) :
    listModify f n l = l := by
  induction l generalizing n with
  | nil => cases n <;> rfl
  | cons a l ih =>
    cases n with
    | zero =>
      show f a :: l = a :: l
      exact congrArg (fun x => x :: l) (h (Nat.succ_pos _))
    | succ m =>
      show a :: listModify f m l = a :: l
      rw [ih m (fun hm => h (Nat.succ_lt_succ hm))]

theorem listModify_absorb (f g : α → α) (n : Nat) (l : List α)
    (h : ∀ a, f (g a) = f a) :
    listModify f n (listModify g n l) = listModify f n l := by
  rw [listModify_listModify]
  have hfun : (fun a => f (g a)) = f := funext h
  rw [hfun]

theorem setPMImpulse_eq (s : Skeleton) (sb pi : Nat) (v : List ℚ) :
    setPMImpulse s sb pi v =
      { s with softBodies := listModify (setImpulseSB v pi) sb s.softBodies } :=
  rfl

theorem setImpulseSB_absorb (v w : List ℚ) (pi : Nat) (sbd : SoftBodyState) :
    setImpulseSB w pi (setImpulseSB v pi sbd) = setImpulseSB w pi sbd := by
  unfold setImpulseSB
  congr 1
  show listModify (setImpulsePM w) pi
      (listModify (setImpulsePM v) pi sbd.pointMasses)
    = listModify (setImpulsePM w) pi sbd.pointMasses
  exact listModify_absorb _ _ _ _ (fun p => rfl)

theorem setPMImpulse_setPMImpulse (s : Skeleton) (sb pi : Nat) (v w : List ℚ) :
    setPMImpulse (setPMImpulse s sb pi v) sb pi w = setPMImpulse s sb pi w := by
  rw [setPMImpulse_eq, setPMImpulse_eq, setPMImpulse_eq]
  congr 1
  show listModify (setImpulseSB w pi) sb
      (listModify (setImpulseSB v pi) sb s.softBodies)
    = listModify (setImpulseSB w pi) sb s.softBodies
  exact listModify_absorb _ _ _ _ (fun sbd => setImpulseSB_absorb v w pi sbd)

theorem setPMImpulse_restore (s : Skeleton) (sb pi : Nat) (pm : PointMassState)
    (hget : getPM s sb pi = some pm) :
    setPMImpulse s sb pi pm.constraintImpulse = s := by
  cases hsb : s.softBodies.get? sb with
  | none => unfold getPM at hget; rw [hsb] at hget; cases hget
  | some sbd =>
    have hget2 : sbd.pointMasses.get? pi = some pm := by
      unfold getPM at hget
      rw [hsb] at hget
      exact hget
    rw [setPMImpulse_eq]
    have hinner : listModify (setImpulsePM pm.constraintImpulse) pi
        sbd.pointMasses = sbd.pointMasses := by
      apply listModify_id_of
      intro hpn
      have hpmeq : sbd.pointMasses.get ⟨pi, hpn⟩ = pm := by
        have hsome := List.get?_eq_get hpn
        rw [hsome] at hget2
        exact Option.some.inj hget2
      show setImpulsePM pm.constraintImpulse (sbd.pointMasses.get ⟨pi, hpn⟩)
        = sbd.pointMasses.get ⟨pi, hpn⟩
      rw [hpmeq]
      rfl
    have houter : listModify (setImpulseSB pm.constraintImpulse pi) sb
        s.softBodies = s.softBodies := by
      apply listModify_id_of
      intro hn
      have hsbeq : s.softBodies.get ⟨sb, hn⟩ = sbd := by
        have hsome := List.get?_eq_get hn
        rw [hsome] at hsb
        exact Option.some.inj hsb
      show setImpulseSB pm.constraintImpulse pi (s.softBodies.get ⟨sb, hn⟩)
        = s.softBodies.get ⟨sb, hn⟩
      rw [hsbeq]
      unfold setImpulseSB
      rw [hinner]
    rw [houter]

theorem setPMImpulse_invalid (s : Skeleton) (sb pi : Nat) (v : List ℚ)
    (hget : getPM s sb pi = none) :
    setPMImpulse s sb pi v = s := by
  rw [setPMImpulse_eq]
  cases hsb : s.softBodies.get? sb with
  | none =>
    have hlen : s.softBodies.length ≤ sb := by
      by_contra hlt
      push_neg at hlt
      rw [List.get?_eq_get hlt] at hsb
      cases hsb
    rw [listModify_oob _ _ _ hlen]
  | some sbd =>
    have hget2 : sbd.pointMasses.get? pi = none := by
      unfold getPM at hget
      rw [hsb] at hget
      exact hget
    have hplen : sbd.pointMasses.length ≤ pi := by
      by_contra hlt
      push_neg at hlt
      rw [List.get?_eq_get hlt] at hget2
      cases hget2
    have houter : listModify (setImpulseSB v pi) sb s.softBodies
        = s.softBodies := by
      apply listModify_id_of
      intro hn
      have hsbeq : s.softBodies.get ⟨sb, hn⟩ = sbd := by
        have hsome := List.get?_eq_get hn
        rw [hsome] at hsb
        exact Option.some.inj hsb
      show setImpulseSB v pi (s.softBodies.get ⟨sb, hn⟩)
        = s.softBodies.get ⟨sb, hn⟩
      rw [hsbeq]
      unfold setImpulseSB
      rw [listModify_oob _ _ _ hplen]
    rw [houter]

/-- C7: under the precondition that every body's constraint impulse is zero,
updateBiasImpulse(body, imp6) leaves every body's constraint impulse equal to
zero when it returns (it sets the impulse, walks the ancestor chain, then
zeroes it out), so the whole skeleton state is unchanged; and
updateBiasImpulse(softBody, pointMass, imp3) backs up and restores the point
mass's constraint impulses exactly, leaving the skeleton state unchanged.
Both overloads leave all constraint-impulse state as it was. -/
theorem biasImpulse_preserves_impulses (s : Skeleton) (b sb pi : Nat)
    (imp imp3 : List ℚ)
    (h6 : ∀ bd ∈ s.bodies, bd.constraintImpulse = zero6) :
    (updateBiasImpulseVec6 s b imp).1 = s ∧
    (updateBiasImpulsePointMass s sb pi imp3).1 = s := by
  constructor
  · have hres : (updateBiasImpulseVec6 s b imp).1 =
        { s with bodies := listModify (setImpulseBody zero6) b (listModify (setImpulseBody imp) b s.bodies) } :=
      rfl
    rw [hres, listModify_absorb (setImpulseBody zero6) (setImpulseBody imp) b
      s.bodies (fun bd => rfl)]
    have hmod : listModify (setImpulseBody zero6) b s.bodies = s.bodies := by
      apply listModify_id_of
      intro hn
      have hz : (s.bodies.get ⟨b, hn⟩).constraintImpulse = zero6 :=
        h6 _ (List.get_mem s.bodies b hn)
      show setImpulseBody zero6 (s.bodies.get ⟨b, hn⟩) = s.bodies.get ⟨b, hn⟩
      unfold setImpulseBody
      rw [← hz]
    rw [hmod]
  · have hres : (updateBiasImpulsePointMass s sb pi imp3).1 =
        (match getPM s sb pi with
         | some p =>
             setPMImpulse (setPMImpulse s sb pi imp3) sb pi p.constraintImpulse
         | none => setPMImpulse s sb pi imp3) := rfl
    cases hget : getPM s sb pi with
    | some pm =>
      rw [hres, hget]
      show setPMImpulse (setPMImpulse s sb pi imp3) sb pi pm.constraintImpulse = s
      rw [setPMImpulse_setPMImpulse]
      exact setPMImpulse_restore s sb pi pm hget
    | none =>
      rw [hres, hget]
      show setPMImpulse s sb pi imp3 = s
      exact setPMImpulse_invalid s sb pi imp3 hget

/-- Witness for C7 at the concrete one-body soft skeleton with zero constraint
impulses. -/
theorem biasImpulse_preserves_impulses_witness :
    (∀ bd ∈ skel7.bodies, bd.constraintImpulse = zero6) ∧
    (updateBiasImpulseVec6 skel7 0 [1, 1, 1, 1, 1, 1]).1 = skel7 :=
  ⟨by decide,
   (biasImpulse_preserves_impulses skel7 0 0 0 [1, 1, 1, 1, 1, 1] [1, 1, 1]
     (by decide)).1⟩

theorem applyWrites_append (F : Nat → ℚ) (l1 l2 : List (Nat × Nat × (Nat → ℚ))) :
    applyWrites F (l1 ++ l2) = applyWrites (applyWrites F l1) l2 := by
  unfold applyWrites
  rw [List.foldl_append]

theorem applyWrites_not_covered (k : Nat) :
    ∀ (ws : List (Nat × Nat × (Nat → ℚ))) (F : Nat → ℚ),
      (∀ w ∈ ws, ¬(w.1 ≤ k ∧ k < w.1 + w.2.1)) →
      applyWrites F ws k = F k := by
  intro ws
  induction ws with
  | nil => intro F _; rfl
  | cons w ws ih =>
    intro F h
    have hstep : applyWrites F (w :: ws) =
        applyWrites (writeSeg F w.1 w.2.1 w.2.2) ws := rfl
    rw [hstep, ih _ (fun u hu => h u (List.mem_cons_of_mem _ hu))]
    unfold writeSeg
    rw [if_neg (h w (List.mem_cons_self _ _))]

theorem applyWrites_last (F : Nat → ℚ) (l1 l2 : List (Nat × Nat × (Nat → ℚ)))
    (w : Nat × Nat × (Nat → ℚ)) (k : Nat)
    (hcov : w.1 ≤ k ∧ k < w.1 + w.2.1)
    (h2 : ∀ u ∈ l2, ¬(u.1 ≤ k ∧ k < u.1 + u.2.1)) :
    applyWrites F (l1 ++ w :: l2) k = w.2.2 (k - w.1) := by
  rw [applyWrites_append]
  have hstep : applyWrites (applyWrites F l1) (w :: l2) =
      applyWrites (writeSeg (applyWrites F l1) w.1 w.2.1 w.2.2) l2 := rfl
  rw [hstep, applyWrites_not_covered k l2 _ h2]
  unfold writeSeg
  rw [if_pos hcov]

theorem list_split_at {α : Type _} (l : List α) (n : Nat) (x : α)
    (h : l.get? n = some x) : l = l.take n ++ x :: l.drop (n + 1) := by
  have hn : n < l.length := by
    by_contra hge
    push_neg at hge
    rw [List.get?_eq_none.mpr hge] at h
    cases h
  have hx : l.get ⟨n, hn⟩ = x := by
    rw [List.get?_eq_get hn] at h
    exact Option.some.inj h
  have hx2 : l[n] = x := hx
  conv_lhs => rw [← List.take_append_drop n l]
  rw [List.drop_eq_getElem_cons hn, hx2]

theorem softWrites_split (dt : ℚ) (sbs : List SoftBodyState) (sb pi : Nat)
    (sbd : SoftBodyState) (pm : PointMassState)
    (hsb : sbs.get? sb = some sbd)
    (hpm : sbd.pointMasses.get? pi = some pm) :
    softWrites dt sbs =
      (((sbs.take sb).map (fun s2 => s2.pointMasses.map (pmEntry dt s2))).flatten
        ++ (sbd.pointMasses.take pi).map (pmEntry dt sbd))
      ++ pmEntry dt sbd pm
        :: ((sbd.pointMasses.drop (pi + 1)).map (pmEntry dt sbd)
            ++ ((sbs.drop (sb + 1)).map
                (fun s2 => s2.pointMasses.map (pmEntry dt s2))).flatten) := by
  unfold softWrites
  conv_lhs => rw [list_split_at sbs sb sbd hsb]
  rw [List.map_append, List.map_cons, List.flatten_append, List.flatten_cons]
  conv_lhs => rw [list_split_at sbd.pointMasses pi pm hpm]
  rw [List.map_append, List.map_cons]
  simp [List.append_assoc]

/-- C9: for every soft-body point mass, updateExternalForceVector writes into
the 3-entry block of Fext starting at the point mass's first skeleton index
exactly the restoring force minus (kv + n ke) q minus dt (kv + n ke) qdot plus
the sum over connected point masses of ke (q + dt qdot), provided the blocks
of the point masses processed later are disjoint from this one (spec invariant:
point-mass coordinate blocks are pairwise disjoint). -/
theorem extForce_pm_block (env : BodyEnv) (s : Skeleton) (sb pi : Nat)
    (sbd : SoftBodyState) (pm : PointMassState)
    (hsb : s.softBodies.get? sb = some sbd)
    (hpm : sbd.pointMasses.get? pi = some pm)
    (hdisj : laterDisjointB s sb pi = true) :
    ∀ c, c < 3 →
      (updateExternalForceVector env s).mFext (pm.iStart + c) =
        pmExtForce s.timeStep sbd.kv sbd.ke sbd.pointMasses pm c := by
  intro c hc
  have hdisj2 : (((sbd.pointMasses.drop (pi + 1)).all fun p =>
        decide (p.iStart + 3 ≤ pm.iStart) || decide (pm.iStart + 3 ≤ p.iStart))
      && ((s.softBodies.drop (sb + 1)).all fun sb2 =>
            sb2.pointMasses.all fun p =>
              decide (p.iStart + 3 ≤ pm.iStart) ||
                decide (pm.iStart + 3 ≤ p.iStart))) = true := by
    have h0 := hdisj
    simp only [laterDisjointB, hsb, hpm] at h0
    exact h0
  rw [Bool.and_eq_true] at hdisj2
  have hdis : ∀ p2 : PointMassState,
      (p2 ∈ sbd.pointMasses.drop (pi + 1) ∨
        ∃ sb2 ∈ s.softBodies.drop (sb + 1), p2 ∈ sb2.pointMasses) →
      p2.iStart + 3 ≤ pm.iStart ∨ pm.iStart + 3 ≤ p2.iStart := by
    intro p2 hp2
    rcases hp2 with hp2 | ⟨sb2, hsb2, hp2⟩
    · have hb := List.all_eq_true.mp hdisj2.1 p2 hp2
      simpa using hb
    · have hb := List.all_eq_true.mp hdisj2.2 sb2 hsb2
      have hb2 := List.all_eq_true.mp hb p2 hp2
      simpa using hb2
  show applyWrites (rigidFext env s.bodies)
      (softWrites s.timeStep s.softBodies) (pm.iStart + c)
    = pmExtForce s.timeStep sbd.kv sbd.ke sbd.pointMasses pm c
  rw [softWrites_split s.timeStep s.softBodies sb pi sbd pm hsb hpm]
  have hno : ∀ u ∈ (sbd.pointMasses.drop (pi + 1)).map (pmEntry s.timeStep sbd)
      ++ ((s.softBodies.drop (sb + 1)).map
          (fun s2 => s2.pointMasses.map (pmEntry s.timeStep s2))).flatten,
      ¬(u.1 ≤ pm.iStart + c ∧ pm.iStart + c < u.1 + u.2.1) := by
    intro u hu
    rcases List.mem_append.mp hu with hu | hu
    · obtain ⟨p2, hp2, rfl⟩ := List.mem_map.mp hu
      intro hcov2
      simp only [pmEntry] at hcov2
      rcases hdis p2 (Or.inl hp2) with h | h <;> omega
    · obtain ⟨lw, hlw, hu2⟩ := List.mem_flatten.mp hu
      obtain ⟨sb2, hsb2, rfl⟩ := List.mem_map.mp hlw
      obtain ⟨p2, hp2, rfl⟩ := List.mem_map.mp hu2
      intro hcov2
      simp only [pmEntry] at hcov2
      rcases hdis p2 (Or.inr ⟨sb2, hsb2, hp2⟩) with h | h <;> omega
  have hcov : (pmEntry s.timeStep sbd pm).1 ≤ pm.iStart + c ∧
      pm.iStart + c < (pmEntry s.timeStep sbd pm).1 +
        (pmEntry s.timeStep sbd pm).2.1 := by
    simp only [pmEntry]
    omega
  rw [applyWrites_last (rigidFext env s.bodies) _ _ _ _ hcov hno]
  show pmExtForce s.timeStep sbd.kv sbd.ke sbd.pointMasses pm
      (pm.iStart + c - pm.iStart)
    = pmExtForce s.timeStep sbd.kv sbd.ke sbd.pointMasses pm c
  rw [Nat.add_sub_cancel_left]

/-- Witness for C9 at the concrete scenario: one point mass with no neighbors,
kv = 10, dt = 1/100, q = (1/10, 0, 0), zero velocity; the block of the
external force vector equals (minus 1, 0, 0). -/
theorem extForce_pm_block_witness :
    laterDisjointB skel9 0 0 = true ∧
    (updateExternalForceVector env0 skel9).mFext 0 = -1 ∧
    (updateExternalForceVector env0 skel9).mFext 1 = 0 ∧
    (updateExternalForceVector env0 skel9).mFext 2 = 0 := by
  refine ⟨by decide, ?_, ?_, ?_⟩
  · have h := extForce_pm_block env0 skel9 0 0 sb9 pm9 rfl rfl (by decide) 0
      (by decide)
    have h2 : pmExtForce skel9.timeStep sb9.kv sb9.ke sb9.pointMasses pm9 0
        = -1 := by
      norm_num [pmExtForce, pm9, sb9, skel9, baseSkel]
    exact h.trans h2
  · have h := extForce_pm_block env0 skel9 0 0 sb9 pm9 rfl rfl (by decide) 1
      (by decide)
    have h2 : pmExtForce skel9.timeStep sb9.kv sb9.ke sb9.pointMasses pm9 1
        = 0 := by
      norm_num [pmExtForce, pm9, sb9, skel9, baseSkel]
    exact h.trans h2
  · have h := extForce_pm_block env0 skel9 0 0 sb9 pm9 rfl rfl (by decide) 2
      (by decide)
    have h2 : pmExtForce skel9.timeStep sb9.kv sb9.ke sb9.pointMasses pm9 2
        = 0 := by
      norm_num [pmExtForce, pm9, sb9, skel9, baseSkel]
    exact h.trans h2

end Dart
